import Mathlib

/-
Verification of the PDF layout/pagination engine of the CatalogLabel
repository: `src/services/export/pdf_exporter.py`, plus the ellipsis
fitter `_ellipsis_fit` of `src/ui/qt/widgets/pdf_template_dialog.py`.

Modelling conventions:
* Python `str` is `List Char`; a value that may be `None` is an `Option`.
* Python floats are embedded as rationals (the arithmetic the code does on
  them is addition, subtraction, multiplication and comparison; the 0.5
  steps of the font fitter are exact in binary floating point).
* `reportlab.pdfbase.pdfmetrics.stringWidth` is modelled as an abstract
  font-metrics oracle that is additive over the characters of the string
  and linear in the font size, which is how reportlab computes it from the
  font's glyph-width table.
* `while` loops whose measure is not structural are written with an
  explicit fuel argument; every caller passes fuel that provably exceeds
  the number of iterations, so the exhaustion branch is unreachable.
-/

namespace CatalogLabel

abbrev Str := List Char

/-- Python `s.strip()` on the left: drop leading whitespace. -/
def pyLstrip (s : Str) : Str := s.dropWhile Char.isWhitespace

/-- Python `s.rstrip()`: drop trailing whitespace. -/
def pyRstrip (s : Str) : Str := (s.reverse.dropWhile Char.isWhitespace).reverse

/-- Python `s.strip()`: drop leading and trailing whitespace. -/
def pyStrip (s : Str) : Str := pyRstrip (pyLstrip s)

/-- Python `s.lower()` (restricted to the per-character mapping). -/
def pyLower (s : Str) : Str := s.map Char.toLower

/-- Accumulator pass for Python `s.split()` with no separator: split on
runs of whitespace, discarding empty words.  `acc` holds the current word
reversed. -/
def pySplitAux : Str → Str → List Str
  | [], acc => if acc = [] then [] else [acc.reverse]
  | c :: rest, acc =>
      if c.isWhitespace then
        (if acc = [] then [] else [acc.reverse]) ++ pySplitAux rest []
      else pySplitAux rest (c :: acc)

/-- Python `s.split()` with no separator. -/
def pySplit (s : Str) : List Str := pySplitAux s []

/-- Glyph-width table of a font at size 1: `stringWidth` is additive over
characters and linear in the size. -/
abbrev FontOracle := Str → Char → ℚ

/-- Model of `reportlab.pdfbase.pdfmetrics.stringWidth(text, font, size)`. -/
def stringWidth (fw : FontOracle) (t : Str) (font : Str) (size : ℚ) : ℚ :=
  size * (t.map (fw font)).sum

/-! ### `_wrap_words` (pdf_exporter.py lines 132-161)

The two loops of `_wrap_words` are embedded with the rendered-width oracle
abstracted to `W : Str → ℚ` (the callers pass
`fun t => stringWidth fw t font size`).  `wrapChunk chunk w` is the inner
character loop that hard-splits an over-wide word `w` starting from the
current `chunk`; it returns the emitted lines and the final `chunk`.
`wrapLines words cur` is the outer word loop; it returns all emitted lines
including the final `if cur: lines.append(cur)`. -/

def wrapChunk (W : Str → ℚ) (maxW : ℚ) : Str → Str → List Str × Str
  | chunk, [] => ([], chunk)
  | chunk, ch :: rest =>
      if W (chunk ++ [ch]) ≤ maxW then wrapChunk W maxW (chunk ++ [ch]) rest
      else
        (if chunk = [] then (wrapChunk W maxW [ch] rest).1
          else chunk :: (wrapChunk W maxW [ch] rest).1,
         (wrapChunk W maxW [ch] rest).2)

def wrapLines (W : Str → ℚ) (maxW : ℚ) : List Str → Str → List Str
  | [], cur => if cur = [] then [] else [cur]
  | w :: ws, cur =>
      if W (pyStrip (cur ++ ' ' :: w)) ≤ maxW then
        wrapLines W maxW ws (pyStrip (cur ++ ' ' :: w))
      else
        (if cur = [] then [] else [cur]) ++
          (if maxW < W w then
            (wrapChunk W maxW [] w).1 ++ wrapLines W maxW ws (wrapChunk W maxW [] w).2
          else wrapLines W maxW ws w)

/-- Model of `_wrap_words(text, font, size, max_w)`: split into words, then
greedy word wrap with character-level hard splitting of over-wide words.
Empty/whitespace-only text yields one empty line. -/
def wrapWords (fw : FontOracle) (text : Str) (font : Str) (size maxW : ℚ) : List Str :=
  if pySplit text = [] then [[]]
  else wrapLines (fun t => stringWidth fw t font size) maxW (pySplit text) []

/-- Invariant of a line the wrapper may hold or emit: it fits `maxW` or is
a single character. -/
def LineOk (W : Str → ℚ) (maxW : ℚ) (l : Str) : Prop :=
  W l ≤ maxW ∨ l.length = 1

lemma wrapChunk_spec (W : Str → ℚ) (maxW : ℚ) :
    ∀ (w chunk : Str), (chunk = [] ∨ LineOk W maxW chunk) →
      (∀ l ∈ (wrapChunk W maxW chunk w).1, LineOk W maxW l) ∧
        ((wrapChunk W maxW chunk w).2 = [] ∨ LineOk W maxW (wrapChunk W maxW chunk w).2) := by
  intro w
  induction w with
  | nil =>
      intro chunk hc
      exact ⟨by simp [wrapChunk], by simpa [wrapChunk] using hc⟩
  | cons ch rest ih =>
      intro chunk hc
      by_cases hfit : W (chunk ++ [ch]) ≤ maxW
      · have h := ih (chunk ++ [ch]) (Or.inr (Or.inl hfit))
        simpa [wrapChunk, hfit] using h
      · have hr := ih [ch] (Or.inr (Or.inr rfl))
        by_cases hemp : chunk = []
        · simpa [wrapChunk, hfit, hemp] using hr
        · constructor
          · intro l hl
            have hl2 : l = chunk ∨ l ∈ (wrapChunk W maxW [ch] rest).1 := by
              simpa [wrapChunk, hfit, hemp] using hl
            rcases hl2 with h | h
            · exact h ▸ hc.resolve_left hemp
            · exact hr.1 l h
          · simpa [wrapChunk, hfit, hemp] using hr.2

lemma wrapLines_spec (W : Str → ℚ) (maxW : ℚ) :
    ∀ (ws : List Str) (cur : Str), (cur = [] ∨ LineOk W maxW cur) →
      ∀ l ∈ wrapLines W maxW ws cur, LineOk W maxW l := by
  intro ws
  induction ws with
  | nil =>
      intro cur hc l hl
      by_cases hemp : cur = []
      · simp [wrapLines, hemp] at hl
      · have : l = cur := by simpa [wrapLines, hemp] using hl
        exact this ▸ hc.resolve_left hemp
  | cons w ws ih =>
      intro cur hc l hl
      have hcur : ∀ l0 : Str, l0 ∈ (if cur = [] then ([] : List Str) else [cur]) →
          LineOk W maxW l0 := by
        intro l0 h0
        by_cases hemp : cur = []
        · simp [hemp] at h0
        · rw [if_neg hemp] at h0
          exact (List.mem_singleton.mp h0) ▸ hc.resolve_left hemp
      by_cases hfit : W (pyStrip (cur ++ ' ' :: w)) ≤ maxW
      · exact ih (pyStrip (cur ++ ' ' :: w)) (Or.inr (Or.inl hfit))
          l (by simpa [wrapLines, hfit] using hl)
      · by_cases hwide : maxW < W w
        · have hl2 : l ∈ (if cur = [] then ([] : List Str) else [cur]) ++
              ((wrapChunk W maxW [] w).1 ++ wrapLines W maxW ws (wrapChunk W maxW [] w).2) := by
            simpa [wrapLines, hfit, hwide] using hl
          rcases List.mem_append.mp hl2 with h | h
          · exact hcur l h
          · rcases List.mem_append.mp h with h2 | h2
            · exact (wrapChunk_spec W maxW w [] (Or.inl rfl)).1 l h2
            · exact ih _ (wrapChunk_spec W maxW w [] (Or.inl rfl)).2 l h2
        · have hl2 : l ∈ (if cur = [] then ([] : List Str) else [cur]) ++
              wrapLines W maxW ws w := by
            simpa [wrapLines, hfit, hwide] using hl
          rcases List.mem_append.mp hl2 with h | h
          · exact hcur l h
          · exact ih w (Or.inr (Or.inl (le_of_not_lt hwide))) l h

/-- C4: every line `_wrap_words` returns fits `max_w` under the
font-metrics oracle, except that a single character that is by itself
wider than `max_w` forms a line of its own; no line of two or more
characters exceeds `max_w`. -/
theorem wrapWords_width_le (fw : FontOracle) (font : Str) (size maxW : ℚ) (text : Str)
    (hmw : 0 ≤ maxW) (_hne : text ≠ []) :
    ∀ l ∈ wrapWords fw text font size maxW,
      stringWidth fw l font size ≤ maxW ∨
        (l.length = 1 ∧ maxW < stringWidth fw l font size) := by
  intro l hl
  unfold wrapWords at hl
  by_cases hw : pySplit text = []
  · have hnil : l = ([] : Str) := by simpa [hw] using hl
    subst hnil
    left
    simpa [stringWidth] using hmw
  · have hok : LineOk (fun t => stringWidth fw t font size) maxW l :=
      wrapLines_spec _ maxW (pySplit text) [] (Or.inl rfl) l (by simpa [hw] using hl)
    rcases hok with h | h
    · exact Or.inl h
    · by_cases hle : stringWidth fw l font size ≤ maxW
      · exact Or.inl hle
      · exact Or.inr ⟨h, lt_of_not_le hle⟩

/-- C4 witness: at the one-character text `"a"`, unit glyph widths and
`max_w = 0`, the single returned line is that character, wider than
`max_w`. -/
theorem wrapWords_width_le_witness :
    stringWidth (fun _ _ => 1) "a".data "f".data 1 ≤ 0 ∨
      ("a".data.length = 1 ∧ (0 : ℚ) < stringWidth (fun _ _ => 1) "a".data "f".data 1) :=
  wrapWords_width_le (fun _ _ => 1) "f".data 1 0 "a".data le_rfl (by decide)
    "a".data (by norm_num +decide [wrapWords, wrapLines, wrapChunk, pySplit, pySplitAux,
      pyStrip, pyLstrip, pyRstrip, stringWidth])

/-! ### `_fit_paragraph` (pdf_exporter.py lines 164-189)

The `while size >= min_size` loop decreases `size` by exactly 0.5 each
iteration, so it runs at most `ceil((max_size - min_size) * 2) + 1` times;
the loop is embedded with that much fuel.  The fuel-exhausted branch
coincides with the loop's fall-through (return at `min_size`), and the
lemma below shows it is only taken when `size < min_size`. -/

/-- Whether candidate size `size` fits the height budget:
`leading * len(lines) <= max_h` with `leading = size * leading_mult` and
the lines re-wrapped at `size`. -/
def fitsAt (fw : FontOracle) (t font : Str) (maxW maxH leadingMult size : ℚ) : Prop :=
  size * leadingMult * ((wrapWords fw t font size maxW).length : ℚ) ≤ maxH

instance (fw : FontOracle) (t font : Str) (maxW maxH lm size : ℚ) :
    Decidable (fitsAt fw t font maxW maxH lm size) := by
  unfold fitsAt; infer_instance

/-- The `while size >= min_size` loop of `_fit_paragraph`. -/
def fitLoop (fw : FontOracle) (t font : Str) (maxW maxH minSize leadingMult : ℚ) :
    ℕ → ℚ → ℚ × List Str × ℚ
  | 0, _ => (minSize, wrapWords fw t font minSize maxW, minSize * leadingMult)
  | fuel + 1, size =>
      if minSize ≤ size then
        if size * leadingMult * ((wrapWords fw t font size maxW).length : ℚ) ≤ maxH then
          (size, wrapWords fw t font size maxW, size * leadingMult)
        else fitLoop fw t font maxW maxH minSize leadingMult fuel (size - 1/2)
      else (minSize, wrapWords fw t font minSize maxW, minSize * leadingMult)

/-- Model of `_fit_paragraph(text, font, max_w, max_h, max_size, min_size,
leading_mult)`: strip the text; empty text returns `max_size` with one
empty line and no height check; otherwise walk sizes down from `max_size`
in 0.5 steps until the wrapped paragraph fits `max_h`, stopping at
`min_size` regardless. -/
def fitParagraph (fw : FontOracle) (text font : Str)
    (maxW maxH maxSize minSize leadingMult : ℚ) : ℚ × List Str × ℚ :=
  if pyStrip text = [] then (maxSize, [[]], maxSize * leadingMult)
  else fitLoop fw (pyStrip text) font maxW maxH minSize leadingMult
    (⌈(maxSize - minSize) * 2⌉.toNat + 1) maxSize

lemma lt_ceil_toNat_add_one (x : ℚ) : x < (⌈x⌉.toNat : ℚ) + 1 := by
  have h1 : x ≤ (⌈x⌉ : ℚ) := Int.le_ceil x
  have h2 : ((⌈x⌉ : ℤ) : ℚ) ≤ ((⌈x⌉.toNat : ℤ) : ℚ) := by
    exact_mod_cast Int.self_le_toNat ⌈x⌉
  push_cast at h2
  linarith

lemma fitLoop_spec (fw : FontOracle) (t font : Str) (maxW maxH minSize lm : ℚ) :
    ∀ (fuel : ℕ) (size : ℚ), (size - minSize) * 2 < (fuel : ℚ) →
      ((fitLoop fw t font maxW maxH minSize lm fuel size).2.1 =
          wrapWords fw t font (fitLoop fw t font maxW maxH minSize lm fuel size).1 maxW ∧
        (fitLoop fw t font maxW maxH minSize lm fuel size).2.2 =
          (fitLoop fw t font maxW maxH minSize lm fuel size).1 * lm) ∧
      ((minSize ≤ (fitLoop fw t font maxW maxH minSize lm fuel size).1 ∧
          fitsAt fw t font maxW maxH lm (fitLoop fw t font maxW maxH minSize lm fuel size).1 ∧
          ∃ k : ℕ, (fitLoop fw t font maxW maxH minSize lm fuel size).1 = size - (k : ℚ) / 2) ∨
        ((fitLoop fw t font maxW maxH minSize lm fuel size).1 = minSize ∧
          ∀ k : ℕ, minSize ≤ size - (k : ℚ) / 2 →
            ¬ fitsAt fw t font maxW maxH lm (size - (k : ℚ) / 2))) ∧
      (∀ k : ℕ, minSize ≤ size - (k : ℚ) / 2 →
        fitsAt fw t font maxW maxH lm (size - (k : ℚ) / 2) →
          size - (k : ℚ) / 2 ≤ (fitLoop fw t font maxW maxH minSize lm fuel size).1) := by
  intro fuel
  induction fuel with
  | zero =>
      intro size hfuel
      have hlt : size < minSize := by
        have h0 : ((0 : ℕ) : ℚ) = 0 := by norm_num
        rw [h0] at hfuel
        linarith
      refine ⟨⟨rfl, rfl⟩, Or.inr ⟨rfl, ?_⟩, ?_⟩
      · intro k hk
        exfalso
        have h0 : (0 : ℚ) ≤ (k : ℚ) / 2 := by positivity
        linarith
      · intro k hk _
        exfalso
        have h0 : (0 : ℚ) ≤ (k : ℚ) / 2 := by positivity
        linarith
  | succ fuel ih =>
      intro size hfuel
      by_cases hge : minSize ≤ size
      · by_cases hfits : size * lm * ((wrapWords fw t font size maxW).length : ℚ) ≤ maxH
        · have hv : fitLoop fw t font maxW maxH minSize lm (fuel + 1) size =
              (size, wrapWords fw t font size maxW, size * lm) := by
            simp [fitLoop, hge, hfits]
          rw [hv]
          refine ⟨⟨rfl, rfl⟩, Or.inl ⟨hge, hfits, 0, by norm_num⟩, ?_⟩
          intro k hk _
          have h0 : (0 : ℚ) ≤ (k : ℚ) / 2 := by positivity
          show size - (k : ℚ) / 2 ≤ size
          linarith
        · have hstep : (size - 1/2 - minSize) * 2 < (fuel : ℚ) := by
            push_cast at hfuel ⊢
            linarith
          have hIH := ih (size - 1/2) hstep
          have hv : fitLoop fw t font maxW maxH minSize lm (fuel + 1) size =
              fitLoop fw t font maxW maxH minSize lm fuel (size - 1/2) := by
            simp [fitLoop, hge, hfits]
          rw [hv]
          refine ⟨hIH.1, ?_, ?_⟩
          · rcases hIH.2.1 with ⟨h1, h2, k, hk⟩ | ⟨h1, h2⟩
            · exact Or.inl ⟨h1, h2, k + 1, by rw [hk]; push_cast; ring⟩
            · refine Or.inr ⟨h1, ?_⟩
              intro k
              cases k with
              | zero =>
                  intro _ hf
                  have heq : size - ((0 : ℕ) : ℚ) / 2 = size := by norm_num
                  rw [heq] at hf
                  exact hfits hf
              | succ j =>
                  intro hk hf
                  have heq : size - ((j + 1 : ℕ) : ℚ) / 2 = size - 1/2 - (j : ℚ) / 2 := by
                    push_cast; ring
                  rw [heq] at hf
                  exact h2 j (by rw [heq] at hk; exact hk) hf
          · intro k
            cases k with
            | zero =>
                intro _ hf
                have heq : size - ((0 : ℕ) : ℚ) / 2 = size := by norm_num
                rw [heq] at hf
                exact absurd hf hfits
            | succ j =>
                intro hk hf
                have heq : size - ((j + 1 : ℕ) : ℚ) / 2 = size - 1/2 - (j : ℚ) / 2 := by
                  push_cast; ring
                rw [heq] at hk hf ⊢
                exact hIH.2.2 j hk hf
      · have hlt : size < minSize := not_le.mp hge
        have hv : fitLoop fw t font maxW maxH minSize lm (fuel + 1) size =
            (minSize, wrapWords fw t font minSize maxW, minSize * lm) := by
          simp [fitLoop, hge]
        rw [hv]
        refine ⟨⟨rfl, rfl⟩, Or.inr ⟨rfl, ?_⟩, ?_⟩
        · intro k hk
          exfalso
          have h0 : (0 : ℚ) ≤ (k : ℚ) / 2 := by positivity
          linarith
        · intro k hk _
          exfalso
          have h0 : (0 : ℚ) ≤ (k : ℚ) / 2 := by positivity
          linarith

/-- C5 counterexample: at empty text, `max_h = 0`, `max_size = 10`,
`min_size = 7`, `leading_mult = 1`, `_fit_paragraph` returns size 10,
which neither satisfies `leading * line_count <= max_h` nor equals
`min_size`, contradicting the claimed "largest fitting candidate, else
exactly `min_size`" rule. -/
theorem fitParagraph_claim_counterexample :
    ¬ fitsAt (fun _ _ => 1) (pyStrip []) "f".data 1 0 1
        (fitParagraph (fun _ _ => 1) [] "f".data 1 0 10 7 1).1 ∧
      (fitParagraph (fun _ _ => 1) [] "f".data 1 0 10 7 1).1 ≠ 7 := by
  constructor
  · intro h
    norm_num +decide [fitParagraph, fitsAt, wrapWords, pySplit, pySplitAux, pyStrip,
      pyLstrip, pyRstrip, stringWidth] at h
  · norm_num +decide [fitParagraph, pyStrip, pyLstrip, pyRstrip]

/-- C5 (amended): for `min_size <= max_size` and text whose stripped form
is non-empty, `_fit_paragraph` returns a size between `min_size` and
`max_size`, the lines re-wrapped at that size, leading
`size * leading_mult`, and the size is the largest candidate in the
descending 0.5-step sequence from `max_size` satisfying
`leading * line_count <= max_h`, or exactly `min_size` when no candidate
down to `min_size` fits; for empty stripped text the function instead
returns `max_size` with a single empty line and no height check. -/
theorem fitParagraph_spec (fw : FontOracle) (font text : Str)
    (maxW maxH maxSize minSize lm : ℚ)
    (hms : minSize ≤ maxSize) (hne : pyStrip text ≠ [])
    (r : ℚ × List Str × ℚ)
    (hr : r = fitParagraph fw text font maxW maxH maxSize minSize lm) :
    (minSize ≤ r.1 ∧ r.1 ≤ maxSize) ∧
      r.2.1 = wrapWords fw (pyStrip text) font r.1 maxW ∧
      r.2.2 = r.1 * lm ∧
      ((fitsAt fw (pyStrip text) font maxW maxH lm r.1 ∧
          ∃ k : ℕ, r.1 = maxSize - (k : ℚ) / 2) ∨
        (r.1 = minSize ∧ ∀ k : ℕ, minSize ≤ maxSize - (k : ℚ) / 2 →
          ¬ fitsAt fw (pyStrip text) font maxW maxH lm (maxSize - (k : ℚ) / 2))) ∧
      (∀ k : ℕ, minSize ≤ maxSize - (k : ℚ) / 2 →
        fitsAt fw (pyStrip text) font maxW maxH lm (maxSize - (k : ℚ) / 2) →
          maxSize - (k : ℚ) / 2 ≤ r.1) := by
  have hfuel : (maxSize - minSize) * 2 <
      ((⌈(maxSize - minSize) * 2⌉.toNat + 1 : ℕ) : ℚ) := by
    push_cast
    exact lt_ceil_toNat_add_one _
  have h := fitLoop_spec fw (pyStrip text) font maxW maxH minSize lm
    (⌈(maxSize - minSize) * 2⌉.toNat + 1) maxSize hfuel
  rw [fitParagraph, if_neg hne] at hr
  subst hr
  refine ⟨⟨?_, ?_⟩, h.1.1, h.1.2, ?_, h.2.2⟩
  · rcases h.2.1 with ⟨h1, _, _⟩ | ⟨h1, _⟩
    · exact h1
    · rw [h1]
  · rcases h.2.1 with ⟨_, _, k, hk⟩ | ⟨h1, _⟩
    · have h0 : (0 : ℚ) ≤ (k : ℚ) / 2 := by positivity
      rw [hk]; linarith
    · rw [h1]; exact hms
  · rcases h.2.1 with ⟨_, h2, h3⟩ | h1
    · exact Or.inl ⟨h2, h3⟩
    · exact Or.inr h1

/-- C5 witness: at text `"a"`, unit glyph widths, generous height budget
and sizes 7..10, the fitter returns a size between 7 and 10. -/
theorem fitParagraph_spec_witness :
    7 ≤ (fitParagraph (fun _ _ => 1) "a".data "f".data 1 100 10 7 1).1 ∧
      (fitParagraph (fun _ _ => 1) "a".data "f".data 1 100 10 7 1).1 ≤ 10 :=
  (fitParagraph_spec (fun _ _ => 1) "f".data "a".data 1 100 10 7 1 (by norm_num)
    (by decide) _ rfl).1

/-! ### `_ellipsis_fit` (pdf_template_dialog.py lines 312-329)

`QFontMetrics.horizontalAdvance` returns integer pixel widths, so the
oracle here maps a string to `ℤ`.  The binary-search `while lo <= hi`
loop halves the interval each iteration; it is embedded with fuel
`len(s) + 2`, which exceeds the `hi + 1 - lo` iterations it can take.
`mid = (lo + hi) // 2` is Python floor division; within the loop
`0 ≤ lo ≤ hi`, where Lean's integer `/` (Euclidean, positive divisor)
agrees with it, and the slice `s[:mid]` is `List.take mid.toNat`. -/

abbrev QtMetrics := Str → ℤ

/-- The ellipsis glyph `"…"` appended by `_ellipsis_fit`. -/
def ellChar : Char := '…'

/-- The `while lo <= hi` binary-search loop of `_ellipsis_fit`, carrying
`best` (initially the bare ellipsis). -/
def ellipsisLoop (fm : QtMetrics) (s : Str) (maxW : ℤ) : ℕ → ℤ → ℤ → Str → Str
  | 0, _, _, best => best
  | fuel + 1, lo, hi, best =>
      if lo ≤ hi then
        if fm (pyRstrip (s.take ((lo + hi) / 2).toNat) ++ [ellChar]) ≤ maxW then
          ellipsisLoop fm s maxW fuel ((lo + hi) / 2 + 1) hi
            (pyRstrip (s.take ((lo + hi) / 2).toNat) ++ [ellChar])
        else ellipsisLoop fm s maxW fuel lo ((lo + hi) / 2 - 1) best
      else best

/-- Model of `_ellipsis_fit(fm, text, max_w)`: strip; return the stripped
text when it fits; return `""` when even the ellipsis glyph is too wide;
otherwise binary-search the longest right-stripped prefix that still fits
with the ellipsis appended. -/
def ellipsisFit (fm : QtMetrics) (text : Str) (maxW : ℤ) : Str :=
  if fm (pyStrip text) ≤ maxW then pyStrip text
  else if maxW < fm [ellChar] then []
  else ellipsisLoop fm (pyStrip text) maxW ((pyStrip text).length + 2)
    0 ((pyStrip text).length : ℤ) [ellChar]

lemma dropWhile_isSuffix (p : Char → Bool) : ∀ l : Str, l.dropWhile p <:+ l := by
  intro l
  induction l with
  | nil => exact List.suffix_refl _
  | cons a l ih =>
      by_cases h : p a
      · simpa [List.dropWhile, h] using ih.trans (List.suffix_cons a l)
      · simp [List.dropWhile, h]

lemma pyRstrip_isPrefix (l : Str) : pyRstrip l <+: l := by
  have h := dropWhile_isSuffix Char.isWhitespace l.reverse
  have h2 : (pyRstrip l).reverse <:+ l.reverse := by
    simpa [pyRstrip] using h
  exact (List.reverse_suffix).mp h2

lemma ellipsisLoop_shape (fm : QtMetrics) (s : Str) (maxW : ℤ) :
    ∀ (fuel : ℕ) (lo hi : ℤ) (best : Str),
      (∃ p, p <+: s ∧ best = p ++ [ellChar]) →
      ∃ p, p <+: s ∧ ellipsisLoop fm s maxW fuel lo hi best = p ++ [ellChar] := by
  intro fuel
  induction fuel with
  | zero => intro lo hi best hb; simpa [ellipsisLoop] using hb
  | succ fuel ih =>
      intro lo hi best hb
      by_cases hlh : lo ≤ hi
      · by_cases hfit : fm (pyRstrip (s.take ((lo + hi) / 2).toNat) ++ [ellChar]) ≤ maxW
        · have hv : ellipsisLoop fm s maxW (fuel + 1) lo hi best =
              ellipsisLoop fm s maxW fuel ((lo + hi) / 2 + 1) hi
                (pyRstrip (s.take ((lo + hi) / 2).toNat) ++ [ellChar]) := by
            simp [ellipsisLoop, hlh, hfit]
          rw [hv]
          exact ih _ _ _ ⟨pyRstrip (s.take ((lo + hi) / 2).toNat),
            (pyRstrip_isPrefix _).trans (List.take_prefix _ _), rfl⟩
        · have hv : ellipsisLoop fm s maxW (fuel + 1) lo hi best =
              ellipsisLoop fm s maxW fuel lo ((lo + hi) / 2 - 1) best := by
            simp [ellipsisLoop, hlh, hfit]
          rw [hv]
          exact ih _ _ _ hb
      · have hv : ellipsisLoop fm s maxW (fuel + 1) lo hi best = best := by
          simp [ellipsisLoop, hlh]
        rw [hv]
        exact hb

/-- C9 counterexample: with per-character width 1 and `max_w = 5`, the
text `" a "` fits (`width 3 <= 5`) yet `_ellipsis_fit` returns the
stripped `"a"`, not the string unchanged. -/
theorem ellipsisFit_claim_counterexample :
    (fun s : Str => (s.length : ℤ)) " a ".data ≤ 5 ∧
      ellipsisFit (fun s : Str => (s.length : ℤ)) " a ".data 5 ≠ " a ".data := by
  exact ⟨by decide, by decide⟩

/-- C9 (amended): `_ellipsis_fit` strips its input first.  For every text
whose STRIPPED form fits `max_w` it returns that stripped text (so a text
with no surrounding whitespace is returned unchanged); it returns the
empty string iff the stripped text is empty and fits, or the stripped
text does not fit and even the ellipsis glyph alone exceeds `max_w`;
otherwise the result is a (right-stripped) prefix of the stripped text
followed by the ellipsis, or the stripped text itself. -/
theorem ellipsisFit_spec (fm : QtMetrics) (text : Str) (maxW : ℤ) :
    (fm (pyStrip text) ≤ maxW → ellipsisFit fm text maxW = pyStrip text) ∧
      (ellipsisFit fm text maxW = [] ↔
        (pyStrip text = [] ∧ fm (pyStrip text) ≤ maxW) ∨
          (maxW < fm (pyStrip text) ∧ maxW < fm [ellChar])) ∧
      (ellipsisFit fm text maxW ≠ [] →
        ellipsisFit fm text maxW = pyStrip text ∨
          ∃ p, p <+: pyStrip text ∧ ellipsisFit fm text maxW = p ++ [ellChar]) := by
  by_cases h1 : fm (pyStrip text) ≤ maxW
  · have hv : ellipsisFit fm text maxW = pyStrip text := by simp [ellipsisFit, h1]
    rw [hv]
    refine ⟨fun _ => rfl, ?_, fun _ => Or.inl rfl⟩
    constructor
    · intro h; exact Or.inl ⟨h, h1⟩
    · rintro (⟨h, _⟩ | ⟨h, _⟩)
      · exact h
      · exact absurd h1 (not_le.mpr h)
  · by_cases h2 : maxW < fm [ellChar]
    · have hv : ellipsisFit fm text maxW = [] := by simp [ellipsisFit, h1, h2]
      rw [hv]
      refine ⟨fun hc => absurd hc h1, ?_, fun hne => absurd rfl hne⟩
      constructor
      · intro _; exact Or.inr ⟨not_le.mp h1, h2⟩
      · intro _; rfl
    · obtain ⟨p, hp, hv0⟩ := ellipsisLoop_shape fm (pyStrip text) maxW
        ((pyStrip text).length + 2) 0 ((pyStrip text).length : ℤ) [ellChar]
        ⟨[], List.nil_prefix, rfl⟩
      have hv : ellipsisFit fm text maxW = p ++ [ellChar] := by
        rw [ellipsisFit, if_neg h1, if_neg h2]
        exact hv0
      rw [hv]
      refine ⟨fun hc => absurd hc h1, ?_, fun _ => Or.inr ⟨p, hp, rfl⟩⟩
      constructor
      · intro h; exact absurd h (by simp)
      · rintro (⟨_, hc⟩ | ⟨_, hc⟩)
        · exact absurd hc h1
        · exact absurd hc h2

/-! ### `_as_str` / `_norm_template_id` (pdf_exporter.py lines 39-49) -/

/-- An arbitrary Python value as seen by `_as_str`: `None`, a string, or
any other object, whose `str()` conversion either yields a string or
raises (the `except` branch maps a raising conversion to `""`). -/
inductive PyVal where
  | none
  | str (s : Str)
  | obj (conv : Option Str)

/-- Model of `_as_str(x)`. -/
def asStr : PyVal → Str
  | PyVal.none => []
  | PyVal.str s => s
  | PyVal.obj (some r) => r
  | PyVal.obj Option.none => []

/-- The eight supported template identifiers, in the order the source
lists them. -/
def allowedTemplates : List Str :=
  ["classic".data, "modern".data, "institutional".data, "boxed".data,
    "compact".data, "code_first".data, "outline".data, "two_column".data]

/-- Model of `_norm_template_id` applied to an already-converted string:
strip, lowercase, fall back to `"classic"` when not a supported id. -/
def normTemplateIdS (s : Str) : Str :=
  if pyLower (pyStrip s) ∈ allowedTemplates then pyLower (pyStrip s) else "classic".data

/-- Model of `_norm_template_id(x)` for an arbitrary value. -/
def normTemplateId (x : PyVal) : Str := normTemplateIdS (asStr x)

lemma normTemplateIdS_mem (s : Str) : normTemplateIdS s ∈ allowedTemplates := by
  unfold normTemplateIdS
  by_cases h : pyLower (pyStrip s) ∈ allowedTemplates
  · rwa [if_pos h]
  · rw [if_neg h]; decide

lemma normTemplateIdS_fixed : ∀ t ∈ allowedTemplates, normTemplateIdS t = t := by decide

lemma normTemplateIdS_idem (s : Str) :
    normTemplateIdS (normTemplateIdS s) = normTemplateIdS s :=
  normTemplateIdS_fixed _ (normTemplateIdS_mem s)

/-- C8: `_norm_template_id` never raises and always lands on one of the
eight supported identifiers: an input whose string conversion, stripped
and lowercased, is not a supported id (this covers `None`, `""`, and
non-string values) maps to `"classic"`, a supported one to itself. -/
theorem normTemplateId_total (x : PyVal) :
    normTemplateId x ∈ allowedTemplates ∧
      (pyLower (pyStrip (asStr x)) ∉ allowedTemplates →
        normTemplateId x = "classic".data) ∧
      (pyLower (pyStrip (asStr x)) ∈ allowedTemplates →
        normTemplateId x = pyLower (pyStrip (asStr x))) := by
  refine ⟨normTemplateIdS_mem _, fun h => ?_, fun h => ?_⟩
  · unfold normTemplateId normTemplateIdS
    rw [if_neg h]
  · unfold normTemplateId normTemplateIdS
    rw [if_pos h]

/-! ### `_walk_tree` / `_doc_rows` / `_group_by_level1`
(pdf_exporter.py lines 221-267) -/

/-- A row of the flattened hierarchy: `(level, code, name)`. -/
abbrev FlatRow := ℤ × Str × Str

/-- A node of the hierarchy exported by the tree editor: a dict with
`code`, `name` (either possibly missing/None) and `children`. -/
inductive Node where
  | mk (code : Option Str) (name : Option Str) (children : List Node)

/-- Model of `_walk_tree(nodes, level)`: pre-order walk emitting
`(level, (n.get("code") or "").strip(), (n.get("name") or "").strip())`;
a missing/`None` field becomes `""`. -/
def walkTree : List Node → ℤ → List FlatRow
  | [], _ => []
  | Node.mk c n kids :: rest, lvl =>
      (lvl, pyStrip (c.getD []), pyStrip (n.getD [])) ::
        (walkTree kids (lvl + 1) ++ walkTree rest lvl)

/-- The document object as consumed by `export_label_pdf`: the hierarchy
attribute (absent/non-list modelled as `Option.none`), `title` and
`cabinet_section`. -/
structure LabelDoc where
  hierarchy : Option (List Node)
  title : Str
  cabinetSection : Str

/-- Model of `_doc_rows(doc)`: flatten the hierarchy; a missing or
non-list hierarchy, an empty row list, or a single row with both code and
name empty (the blank placeholder node) all yield `[]`. -/
def docRows (doc : LabelDoc) : List FlatRow :=
  match doc.hierarchy with
  | Option.none => []
  | some h =>
      match walkTree h 1 with
      | [(_, [], [])] => []
      | rows => rows

/-- The accumulator loop of `_group_by_level1`: `cur` is the group under
construction, a level-1 row flushes it and starts a new one. -/
def groupLoop : List FlatRow → List FlatRow → List (List FlatRow)
  | cur, [] => if cur = [] then [] else [cur]
  | cur, r :: rest =>
      if r.1 = 1 then
        (if cur = [] then [] else [cur]) ++ groupLoop [r] rest
      else groupLoop (cur ++ [r]) rest

/-- Model of `_group_by_level1(rows)` including the final
`if not groups and rows: return [rows]` fallback. -/
def groupByLevel1 (rows : List FlatRow) : List (List FlatRow) :=
  if groupLoop [] rows = [] ∧ rows ≠ [] then [rows] else groupLoop [] rows

lemma groupLoop_join (rows : List FlatRow) :
    ∀ cur : List FlatRow, (groupLoop cur rows).flatten = cur ++ rows := by
  induction rows with
  | nil =>
      intro cur
      by_cases h : cur = []
      · simp [groupLoop, h]
      · simp [groupLoop, h]
  | cons r rest ih =>
      intro cur
      by_cases h : r.1 = 1
      · by_cases hc : cur = []
        · simp [groupLoop, h, hc, ih]
        · simp [groupLoop, h, hc, ih]
      · have : groupLoop cur (r :: rest) = groupLoop (cur ++ [r]) rest := by
          simp [groupLoop, h]
        rw [this, ih (cur ++ [r])]
        simp

lemma groupLoop_ne_nil (rows : List FlatRow) :
    ∀ cur, ∀ g ∈ groupLoop cur rows, g ≠ [] := by
  induction rows with
  | nil =>
      intro cur g hg
      by_cases h : cur = []
      · simp [groupLoop, h] at hg
      · have : g = cur := by simpa [groupLoop, h] using hg
        exact this ▸ h
  | cons r rest ih =>
      intro cur g hg
      by_cases h : r.1 = 1
      · have hg2 : g ∈ (if cur = [] then ([] : List (List FlatRow)) else [cur]) ++
            groupLoop [r] rest := by simpa [groupLoop, h] using hg
        rcases List.mem_append.mp hg2 with h2 | h2
        · by_cases hc : cur = []
          · simp [hc] at h2
          · have : g = cur := by simpa [hc] using h2
            exact this ▸ hc
        · exact ih [r] g h2
      · exact ih (cur ++ [r]) g (by simpa [groupLoop, h] using hg)

lemma groupLoop_tail_ne_one (rows : List FlatRow) :
    ∀ cur, (∀ x ∈ cur.tail, x.1 ≠ 1) →
      ∀ g ∈ groupLoop cur rows, ∀ x ∈ g.tail, x.1 ≠ 1 := by
  induction rows with
  | nil =>
      intro cur hcur g hg
      by_cases h : cur = []
      · simp [groupLoop, h] at hg
      · have : g = cur := by simpa [groupLoop, h] using hg
        exact this ▸ hcur
  | cons r rest ih =>
      intro cur hcur g hg
      by_cases h : r.1 = 1
      · have hg2 : g ∈ (if cur = [] then ([] : List (List FlatRow)) else [cur]) ++
            groupLoop [r] rest := by simpa [groupLoop, h] using hg
        rcases List.mem_append.mp hg2 with h2 | h2
        · by_cases hc : cur = []
          · simp [hc] at h2
          · have : g = cur := by simpa [hc] using h2
            exact this ▸ hcur
        · exact ih [r] (by simp) g h2
      · refine ih (cur ++ [r]) ?_ g (by simpa [groupLoop, h] using hg)
        intro x hx
        cases cur with
        | nil => simp at hx
        | cons c cs =>
            have hx2 : x ∈ cs ∨ x = r := by simpa using hx
            rcases hx2 with h3 | h3
            · exact hcur x (by simpa using h3)
            · exact h3 ▸ h
lemma groupLoop_all_head_one (rows : List FlatRow) :
    ∀ cur a t, cur = a :: t → a.1 = 1 →
      ∀ g ∈ groupLoop cur rows, ∃ b u, g = b :: u ∧ b.1 = 1 := by
  induction rows with
  | nil =>
      intro cur a t hcur ha g hg
      have : g = cur := by simpa [groupLoop, hcur] using hg
      exact ⟨a, t, this.trans hcur, ha⟩
  | cons r rest ih =>
      intro cur a t hcur ha g hg
      by_cases h : r.1 = 1
      · have hg2 : g ∈ (if cur = [] then ([] : List (List FlatRow)) else [cur]) ++
            groupLoop [r] rest := by simpa [groupLoop, h] using hg
        rcases List.mem_append.mp hg2 with h2 | h2
        · have : g = cur := by simpa [hcur] using h2
          exact ⟨a, t, this.trans hcur, ha⟩
        · exact ih [r] r [] rfl h g h2
      · exact ih (cur ++ [r]) a (t ++ [r]) (by rw [hcur]; simp) ha g
          (by simpa [groupLoop, h] using hg)

lemma groupLoop_tail_head_one (rows : List FlatRow) :
    ∀ cur, ∀ g ∈ (groupLoop cur rows).tail, ∃ b u, g = b :: u ∧ b.1 = 1 := by
  induction rows with
  | nil =>
      intro cur g hg
      by_cases h : cur = []
      · simp [groupLoop, h] at hg
      · simp [groupLoop, h] at hg
  | cons r rest ih =>
      intro cur g hg
      by_cases h : r.1 = 1
      · by_cases hc : cur = []
        · have hg2 : g ∈ (groupLoop [r] rest).tail := by
            simpa [groupLoop, h, hc] using hg
          exact groupLoop_all_head_one rest [r] r [] rfl h g (List.mem_of_mem_tail hg2)
        · have hg2 : g ∈ (groupLoop [r] rest) := by
            have : groupLoop cur (r :: rest) = cur :: groupLoop [r] rest := by
              simp [groupLoop, h, hc]
            rw [this] at hg
            simpa using hg
          exact groupLoop_all_head_one rest [r] r [] rfl h g hg2
      · exact ih (cur ++ [r]) g (by simpa [groupLoop, h] using hg)

/-- C2: `_group_by_level1` is an order-preserving partition: joining the
groups in order gives back the input exactly, empty input gives no
groups, every group is non-empty, every group after the first starts with
a level-1 row, and no group contains a level-1 row beyond its head (so
each level-1 row starts a new group, and rows before the first level-1
row form their own leading group). -/
theorem groupByLevel1_partition (rows : List FlatRow) :
    (groupByLevel1 rows).flatten = rows ∧
      (rows = [] → groupByLevel1 rows = []) ∧
      (∀ g ∈ groupByLevel1 rows, g ≠ []) ∧
      (∀ g ∈ (groupByLevel1 rows).tail, ∃ b u, g = b :: u ∧ b.1 = 1) ∧
      (∀ g ∈ groupByLevel1 rows, ∀ x ∈ g.tail, x.1 ≠ 1) := by
  unfold groupByLevel1
  by_cases hcond : groupLoop [] rows = [] ∧ rows ≠ []
  · exfalso
    have hj := groupLoop_join rows []
    rw [hcond.1] at hj
    exact hcond.2 (by simpa using hj.symm)
  · rw [if_neg hcond]
    refine ⟨by simpa using groupLoop_join rows [], ?_, groupLoop_ne_nil rows [],
      groupLoop_tail_head_one rows [], groupLoop_tail_ne_one rows [] (by simp)⟩
    intro h
    subst h
    simp [groupLoop]

/-! ### C10: rows emitted by `_walk_tree` are already stripped -/

lemma pyRstrip_eq_rdropWhile (s : Str) :
    pyRstrip s = s.rdropWhile Char.isWhitespace := rfl

lemma pyStrip_idem (s : Str) : pyStrip (pyStrip s) = pyStrip s := by
  have h1 : pyLstrip (pyStrip s) = pyStrip s := by
    show (pyStrip s).dropWhile Char.isWhitespace = pyStrip s
    rw [List.dropWhile_eq_self_iff]
    intro hl
    have hpre : pyStrip s <+: pyLstrip s := List.rdropWhile_prefix _ _
    have hlen : 0 < (pyLstrip s).length := lt_of_lt_of_le hl hpre.length_le
    have e : (pyStrip s).get ⟨0, hl⟩ = (pyLstrip s).get ⟨0, hlen⟩ := by
      simpa using hpre.getElem (n := 0) hl
    rw [e]
    exact List.dropWhile_get_zero_not Char.isWhitespace s hlen
  calc pyStrip (pyStrip s) = pyRstrip (pyLstrip (pyStrip s)) := rfl
    _ = pyRstrip (pyStrip s) := by rw [h1]
    _ = pyStrip s := List.rdropWhile_idempotent _ _

/-- C10: every row `_walk_tree` emits carries code and name already
stripped of surrounding whitespace (stripping again is the identity), and
a node with a missing/`None` code yields the empty string as its code (and
symmetrically for the name via `Option.getD`). -/
theorem walkTree_rows_stripped :
    (∀ (nodes : List Node) (lvl : ℤ), ∀ r ∈ walkTree nodes lvl,
        pyStrip r.2.1 = r.2.1 ∧ pyStrip r.2.2 = r.2.2) ∧
      (∀ (nm : Option Str) (kids rest : List Node) (lvl : ℤ),
        (walkTree (Node.mk Option.none nm kids :: rest) lvl).head? =
          some (lvl, [], pyStrip (nm.getD []))) := by
  constructor
  · intro nodes lvl
    induction nodes, lvl using walkTree.induct with
    | case1 lvl => simp [walkTree]
    | case2 c n kids rest lvl ih1 ih2 =>
        intro r hr
        rw [walkTree] at hr
        rcases List.mem_cons.mp hr with h | h
        · subst h
          exact ⟨pyStrip_idem _, pyStrip_idem _⟩
        · rcases List.mem_append.mp h with h2 | h2
          · exact ih1 r h2
          · exact ih2 r h2
  · intro nm kids rest lvl
    simp [walkTree, pyStrip, pyLstrip, pyRstrip]

/-! ### `export_label_pdf` (pdf_exporter.py lines 272-494)

The export is modelled as a pure layout computation.  Drawing primitives
that do not move the layout cursor (header text, bullets, separator
rules, boxes, and the wrapped text painted inside a row's cell) are
abstracted away; what is recorded is, for every data row drawn, the page
number, column index, x origin and top y coordinate — everything the
pagination claims are about.  The mutable closure state
(`y`, `col_idx`, `x_left`, `y_start`) becomes an explicit `LayState`. -/

/-- `reportlab.lib.units.cm` = 72 / 2.54 points. -/
def cm : ℚ := 3600 / 127

/-- `reportlab.lib.pagesizes.A4` (210 mm × 297 mm in points). -/
def A4 : ℚ × ℚ := (21 * cm, 297 / 10 * cm)

/-- Model of the `PdfExportOptions` dataclass with its field defaults. -/
structure PdfExportOptions where
  pagesize : ℚ × ℚ := A4
  templateId : Str := "classic".data
  sectionTitle : Str := []
  autoTwoColumns : Bool := true
  marginCm : ℚ := 16 / 10
  headerGapPt : ℚ := 12
  rowPadPt : ℚ := 4
  fontRegular : Str := "Helvetica".data
  fontBold : Str := "Helvetica-Bold".data
  maxFont : ℚ := 11
  minFont : ℚ := 7
  leadingMult : ℚ := 5 / 4

/-- Model of `_norm_pagesize(x)` restricted to pair inputs: a pair with
positive components passes through, anything else falls back to A4 (the
non-pair Python inputs, which also fall back to A4, have no counterpart
in this typed embedding). -/
def normPagesize (x : ℚ × ℚ) : ℚ × ℚ :=
  if 0 < x.1 ∧ 0 < x.2 then x else A4

/-- The per-template defaults `_apply_template` writes into the options
(lines 71-125): one branch per supported template id. -/
def templateDefaults (tid : Str) (o : PdfExportOptions) : PdfExportOptions :=
  if tid = "classic".data then
    { o with fontRegular := "Times-Roman".data, fontBold := "Times-Bold".data,
             maxFont := 11, minFont := 7, rowPadPt := 6 }
  else if tid = "modern".data then
    { o with fontRegular := "Helvetica".data, fontBold := "Helvetica-Bold".data,
             maxFont := 11, minFont := 7, rowPadPt := 6 }
  else if tid = "institutional".data then
    { o with fontRegular := "Helvetica".data, fontBold := "Helvetica-Bold".data,
             maxFont := 11, minFont := 7, rowPadPt := 6 }
  else if tid = "boxed".data then
    { o with fontRegular := "Times-Roman".data, fontBold := "Times-Bold".data,
             maxFont := 11, minFont := 7, rowPadPt := 6 }
  else if tid = "compact".data then
    { o with fontRegular := "Helvetica".data, fontBold := "Helvetica-Bold".data,
             maxFont := 10, minFont := 7, rowPadPt := 7 / 2 }
  else if tid = "code_first".data then
    { o with fontRegular := "Helvetica".data, fontBold := "Helvetica-Bold".data,
             maxFont := 12, minFont := 15 / 2, rowPadPt := 5 }
  else if tid = "outline".data then
    { o with fontRegular := "Helvetica".data, fontBold := "Helvetica-Bold".data,
             maxFont := 11, minFont := 7, rowPadPt := 4 }
  else if tid = "two_column".data then
    { o with fontRegular := "Helvetica".data, fontBold := "Helvetica-Bold".data,
             maxFont := 11, minFont := 7, rowPadPt := 4 }
  else o

/-- Model of `_apply_template(opts)` (lines 66-127): the Python function
mutates the caller's object in place and returns it; here the mutation is
the functional update. -/
def applyTemplate (o : PdfExportOptions) : PdfExportOptions :=
  templateDefaults (normTemplateIdS o.templateId)
    { o with templateId := normTemplateIdS o.templateId }

/-- The option writes `export_label_pdf` performs before layout
(lines 273-278): `_apply_template`, then normalized pagesize, normalized
template id and stripped section title written back. -/
def exportOpts (o : PdfExportOptions) : PdfExportOptions :=
  { applyTemplate o with
      pagesize := normPagesize (applyTemplate o).pagesize,
      templateId := normTemplateIdS (applyTemplate o).templateId,
      sectionTitle := pyStrip (applyTemplate o).sectionTitle }

/-- Content width `x1 - x0 = (W - margin) - margin` (lines 285-288). -/
def contentWidth (o : PdfExportOptions) : ℚ :=
  (o.pagesize.1 - o.marginCm * cm) - o.marginCm * cm

/-- The document-wide two-column decision (lines 298-307): allowed when
`auto_two_columns` is on and the content is at least 15 cm wide; for the
`two_column` template the `auto_two_columns` flag is ignored and only the
width test remains. -/
def twoColAllowed (o : PdfExportOptions) : Bool :=
  if o.templateId = "two_column".data then decide (15 * cm ≤ contentWidth o)
  else o.autoTwoColumns && decide (15 * cm ≤ contentWidth o)

/-- Vertical cursor position after the page-1 header (lines 310-332):
title block, optional cabinet line, optional section title, rule, gap. -/
def page1StartY (H margin gap : ℚ) (hasCab hasSec : Bool) : ℚ :=
  H - margin - 24 - (if hasCab then 18 else 0) - (if hasSec then 14 + gap else gap)

/-- Cursor position after the abbreviated continuation header that
`start_new_page` draws (lines 351-371). -/
def contStartY (H margin gap : ℚ) (hasCab hasSec : Bool) : ℚ :=
  H - margin - 20 - (if hasCab then 14 else 0) - (if hasSec then 12 + gap else gap)

/-- Model of the `row_height(code, name, code_w, name_w)` closure
(lines 388-397): wrap code and name at `max_font` in their cells, take
the larger line count (at least 1), height is `leading * n + row_pad`. -/
def rowHeight (fw : FontOracle) (o : PdfExportOptions) (code name : Str)
    (codeW nameW : ℚ) : ℚ :=
  o.maxFont * o.leadingMult *
      ((max (max (wrapWords fw code o.fontBold o.maxFont codeW).length
        (wrapWords fw name o.fontRegular o.maxFont nameW).length) 1 : ℕ) : ℚ) +
    o.rowPadPt

/-- One recorded data-row placement: page (1-based), column (0 or 1),
x origin and top y of the row, and the row itself. -/
structure RowDraw where
  page : ℕ
  col : ℕ
  x : ℚ
  yTop : ℚ
  row : FlatRow

/-- The constants of one export run (computed once, lines 280-459). -/
structure LayCtx where
  fw : FontOracle
  opts : PdfExportOptions
  x0 : ℚ
  margin : ℚ
  allowTwoCols : Bool
  colW : ℚ
  colGap : ℚ
  dense : Bool
  codeColW : ℚ
  nameColW : ℚ
  contY : ℚ

/-- The mutable layout cursor (`col_idx`, `x_left`, `y`, `y_start`, plus
the page count). -/
structure LayState where
  page : ℕ
  colIdx : ℕ
  xLeft : ℚ
  y : ℚ
  yStart : ℚ

/-- Model of `start_new_page()` (lines 351-375): every page after the
first draws the same abbreviated header, so the new cursor top is the
precomputed `ctx.contY`; column resets to 0. -/
def startNewPage (ctx : LayCtx) (st : LayState) : LayState :=
  { page := st.page + 1, colIdx := 0, xLeft := ctx.x0, y := ctx.contY, yStart := ctx.contY }

/-- Model of `start_new_column_or_page()` (lines 377-384). -/
def startNewColumnOrPage (ctx : LayCtx) (st : LayState) : LayState :=
  if ctx.allowTwoCols ∧ st.colIdx = 0 then
    { st with colIdx := 1, xLeft := ctx.x0 + ctx.colW + ctx.colGap, y := st.yStart }
  else startNewPage ctx st

/-- Inter-row spacing used in the group estimate and the per-row fit
check: `4.0 if dense else 6.0` (lines 465, 480). -/
def rowSpace (dense : Bool) : ℚ := if dense then 4 else 6

/-- Vertical advance added after actually drawing a row:
`2.0 if dense else 4.0` (lines 486, 488). -/
def rowAdvance (dense : Bool) : ℚ := if dense then 2 else 4

/-- Model of `draw_one_row` (lines 399-440): records the placement and
returns the cursor moved down by the row's height; the painted text,
bullet, rule and box primitives do not move the cursor and are
abstracted away. -/
def drawOneRow (ctx : LayCtx) (st : LayState) (r : FlatRow) : LayState × RowDraw :=
  ({ st with y := st.y - rowHeight ctx.fw ctx.opts r.2.1 r.2.2 ctx.codeColW ctx.nameColW },
   { page := st.page, col := st.colIdx, x := st.xLeft, yTop := st.y, row := r })

/-- The group height estimate `g_h` (lines 463-465). -/
def groupEstH (ctx : LayCtx) (g : List FlatRow) : ℚ :=
  (g.map (fun r => rowHeight ctx.fw ctx.opts r.2.1 r.2.2 ctx.codeColW ctx.nameColW +
    rowSpace ctx.dense)).sum

/-- Cursor after a row is drawn and the inter-row advance applied
(lines 487-488: `y = draw_one_row(...)` then `y -= (2.0 | 4.0)`). -/
def afterRow (ctx : LayCtx) (st : LayState) (r : FlatRow) : LayState :=
  { (drawOneRow ctx st r).1 with y := (drawOneRow ctx st r).1.y - rowAdvance ctx.dense }

/-- The per-row fit check at the top of the inner loop (lines 481-486):
when the row does not fit the remaining space, advance to a new column or
page and, when continuing a started group, redraw its level-1 row. -/
def advanceIfNeeded (ctx : LayCtx) (r : FlatRow) (lvl1 : Option FlatRow) (first : Bool)
    (st : LayState) : LayState × List RowDraw :=
  if st.y - (rowHeight ctx.fw ctx.opts r.2.1 r.2.2 ctx.codeColW ctx.nameColW +
      rowSpace ctx.dense) < ctx.margin then
    match lvl1, first with
    | some l1, false =>
        (afterRow ctx (startNewColumnOrPage ctx st) l1,
         [(drawOneRow ctx (startNewColumnOrPage ctx st) l1).2])
    | _, _ => (startNewColumnOrPage ctx st, [])
  else (st, [])

/-- The inner `for (lvl, code, name) in g` loop (lines 477-489): per-row
fit check and advance, then the row itself. -/
def drawRows (ctx : LayCtx) : List FlatRow → Option FlatRow → Bool → LayState →
    LayState × List RowDraw
  | [], _, _, st => (st, [])
  | r :: rest, lvl1, first, st =>
      ((drawRows ctx rest lvl1 false
          (afterRow ctx (advanceIfNeeded ctx r lvl1 first st).1 r)).1,
        (advanceIfNeeded ctx r lvl1 first st).2 ++
          (drawOneRow ctx (advanceIfNeeded ctx r lvl1 first st).1 r).2 ::
          (drawRows ctx rest lvl1 false
            (afterRow ctx (advanceIfNeeded ctx r lvl1 first st).1 r)).2)

/-- The group-start decision (lines 467-469): when the whole group does
not fit the remaining space of the current column, move to a fresh
column/page before its first row. -/
def groupStart (ctx : LayCtx) (st : LayState) (g : List FlatRow) : LayState :=
  if st.y - groupEstH ctx g < ctx.margin then startNewColumnOrPage ctx st else st

/-- `lvl1_row` (lines 473-475): the group's level-1 header row, when the
group starts with one. -/
def groupLvl1 (g : List FlatRow) : Option FlatRow :=
  match g with
  | r :: _ => if r.1 = 1 then some r else Option.none
  | [] => Option.none

/-- The body of `for g in groups` (lines 461-491): group estimate and
move decision, the rows, then the inter-group gap. -/
def drawGroup (ctx : LayCtx) (st : LayState) (g : List FlatRow) : LayState × List RowDraw :=
  ({ (drawRows ctx g (groupLvl1 g) true (groupStart ctx st g)).1 with
      y := (drawRows ctx g (groupLvl1 g) true (groupStart ctx st g)).1.y -
        (if ctx.dense then 6 else 10) },
   (drawRows ctx g (groupLvl1 g) true (groupStart ctx st g)).2)

def drawGroups (ctx : LayCtx) : List (List FlatRow) → LayState → LayState × List (List RowDraw)
  | [], st => (st, [])
  | g :: gs, st =>
      ((drawGroups ctx gs (drawGroup ctx st g).1).1,
        (drawGroup ctx st g).2 :: (drawGroups ctx gs (drawGroup ctx st g).1).2)

/-- Everything `export_label_pdf` computes before the group loop, bundled:
the run constants, the initial cursor (top of page 1 below the header),
and the level-1 groups. -/
structure ExportLayout where
  ctx : LayCtx
  st0 : LayState
  groups : List (List FlatRow)

/-- The layout setup of `export_label_pdf` (lines 280-459): geometry,
two-column decision, column widths per template, header heights. -/
def exportLayout (fw : FontOracle) (doc : LabelDoc) (optsIn : Option PdfExportOptions) :
    ExportLayout :=
  let opts := exportOpts (optsIn.getD {})
  let tid := opts.templateId
  let H := opts.pagesize.2
  let margin := opts.marginCm * cm
  let x0 := margin
  let contentW := contentWidth opts
  let cab := pyStrip doc.cabinetSection
  let gap := if opts.headerGapPt = 0 then 12 else opts.headerGapPt
  let allow := twoColAllowed opts
  let colGap : ℚ := 12
  let colW := if allow then (contentW - colGap) / 2 else contentW
  let hasCab := !cab.isEmpty
  let hasSec := !opts.sectionTitle.isEmpty
  let dense := decide (tid = "compact".data)
  let codeColW :=
    if tid = "outline".data ∨ tid = "two_column".data then colW * (13 / 50)
    else if tid = "code_first".data then colW * (2 / 5)
    else colW * (3 / 10)
  let y0 := page1StartY H margin gap hasCab hasSec
  { ctx := { fw := fw, opts := opts, x0 := x0, margin := margin,
             allowTwoCols := allow, colW := colW, colGap := colGap, dense := dense,
             codeColW := codeColW, nameColW := colW - codeColW,
             contY := contStartY H margin gap hasCab hasSec },
    st0 := { page := 1, colIdx := 0, xLeft := x0, y := y0, yStart := y0 },
    groups := groupByLevel1 (docRows doc) }

/-- The observable outcome of one export: the (mutated) options object,
the rows drawn for each level-1 group, and whether the document was
finalized with `c.save()`. -/
structure ExportResult where
  opts : PdfExportOptions
  groupDraws : List (List RowDraw)
  saved : Bool

/-- Model of `export_label_pdf(doc, out_path, opts)`: normalize the
options, and either finalize a header-only document (no rows) or lay out
every level-1 group and finalize.  The output path plays no layout role
and is omitted. -/
def exportLabelPdf (fw : FontOracle) (doc : LabelDoc) (optsIn : Option PdfExportOptions) :
    ExportResult :=
  if docRows doc = [] then
    { opts := exportOpts (optsIn.getD {}), groupDraws := [], saved := true }
  else
    { opts := exportOpts (optsIn.getD {}),
      groupDraws := (drawGroups (exportLayout fw doc optsIn).ctx
        (exportLayout fw doc optsIn).groups (exportLayout fw doc optsIn).st0).2,
      saved := true }

/-! ### C7: empty or placeholder-only documents export as header-only -/

/-- C7: a document with no hierarchy rows at all, and a document whose
hierarchy flattens to the single blank placeholder row (level 1, empty
code, empty name), both give `_doc_rows = []`, and `export_label_pdf`
completes, draws no data rows, and still finalizes (saves) the
document. -/
theorem emptyDoc_header_only (fw : FontOracle) (optsIn : Option PdfExportOptions)
    (doc : LabelDoc)
    (h : doc.hierarchy = Option.none ∨
      ∃ hs, doc.hierarchy = some hs ∧
        (walkTree hs 1 = [] ∨ walkTree hs 1 = [(1, [], [])])) :
    docRows doc = [] ∧ (exportLabelPdf fw doc optsIn).groupDraws = [] ∧
      (exportLabelPdf fw doc optsIn).saved = true := by
  have hrows : docRows doc = [] := by
    rcases h with h | ⟨hs, hh, hw | hw⟩
    · simp [docRows, h]
    · simp [docRows, hh, hw]
    · simp [docRows, hh, hw]
  exact ⟨hrows, by simp [exportLabelPdf, hrows], by simp [exportLabelPdf, hrows]⟩

/-- C7 witness: the blank placeholder node of an empty editor. -/
theorem emptyDoc_header_only_witness :
    docRows ⟨some [Node.mk Option.none Option.none []], "t".data, []⟩ = [] ∧
      (exportLabelPdf (fun _ _ => 1)
        ⟨some [Node.mk Option.none Option.none []], "t".data, []⟩ Option.none).groupDraws = [] ∧
      (exportLabelPdf (fun _ _ => 1)
        ⟨some [Node.mk Option.none Option.none []], "t".data, []⟩ Option.none).saved = true :=
  emptyDoc_header_only (fun _ _ => 1) Option.none _
    (Or.inr ⟨[Node.mk Option.none Option.none []], rfl,
      Or.inr (by simp [walkTree, pyStrip, pyLstrip, pyRstrip])⟩)

/-! ### C6: `export_label_pdf` mutates the caller's options -/

lemma applyTemplate_fields (o : PdfExportOptions) :
    (applyTemplate o).marginCm = o.marginCm ∧
      (applyTemplate o).headerGapPt = o.headerGapPt ∧
      (applyTemplate o).autoTwoColumns = o.autoTwoColumns ∧
      (applyTemplate o).leadingMult = o.leadingMult ∧
      (applyTemplate o).pagesize = o.pagesize ∧
      (applyTemplate o).sectionTitle = o.sectionTitle ∧
      (applyTemplate o).templateId = normTemplateIdS o.templateId := by
  unfold applyTemplate templateDefaults
  split_ifs <;> simp

lemma applyTemplate_pos (o : PdfExportOptions) :
    0 < (applyTemplate o).maxFont ∧ 0 < (applyTemplate o).rowPadPt := by
  unfold applyTemplate templateDefaults
  split_ifs with h1 h2 h3 h4 h5 h6 h7 h8
  · exact ⟨by norm_num, by norm_num⟩
  · exact ⟨by norm_num, by norm_num⟩
  · exact ⟨by norm_num, by norm_num⟩
  · exact ⟨by norm_num, by norm_num⟩
  · exact ⟨by norm_num, by norm_num⟩
  · exact ⟨by norm_num, by norm_num⟩
  · exact ⟨by norm_num, by norm_num⟩
  · exact ⟨by norm_num, by norm_num⟩
  · exfalso
    have hm := normTemplateIdS_mem o.templateId
    simp only [allowedTemplates, List.mem_cons, List.mem_singleton] at hm
    rcases hm with h | h | h | h | h | h | h | h
    · exact h1 h
    · exact h2 h
    · exact h3 h
    · exact h4 h
    · exact h5 h
    · exact h6 h
    · exact h7 h
    · exact h8 (by simpa using h)

lemma exportLabelPdf_opts (fw : FontOracle) (doc : LabelDoc)
    (optsIn : Option PdfExportOptions) :
    (exportLabelPdf fw doc optsIn).opts = exportOpts (optsIn.getD {}) := by
  unfold exportLabelPdf
  split_ifs <;> rfl

/-- C6 counterexample: exporting with `template_id = "modern"` and
`font_regular = "Courier"` leaves the caller's options with
`font_regular = "Helvetica"`: the options object is mutated, not
read-only. -/
theorem exportOpts_readonly_counterexample :
    (exportLabelPdf (fun _ _ => 1) ⟨Option.none, [], []⟩
        (some { templateId := "modern".data, fontRegular := "Courier".data })).opts.fontRegular ≠
      ({ templateId := "modern".data,
         fontRegular := "Courier".data } : PdfExportOptions).fontRegular := by
  rw [exportLabelPdf_opts]
  simp only [Option.getD_some]
  unfold exportOpts applyTemplate templateDefaults
  norm_num +decide [normTemplateIdS, allowedTemplates, pyLower, pyStrip, pyLstrip, pyRstrip]

/-- C6 (amended): `export_label_pdf` does not treat the caller's options
as read-only: the object ends the call equal to the deterministic
normalization `exportOpts` (template typographic defaults written in,
template id normalized, pagesize normalized, section title stripped);
only `margin_cm`, `header_gap_pt`, `auto_two_columns` and `leading_mult`
are guaranteed to keep their pre-call values. -/
theorem exportLabelPdf_opts_mutation (fw : FontOracle) (doc : LabelDoc)
    (o : PdfExportOptions) :
    (exportLabelPdf fw doc (some o)).opts = exportOpts o ∧
      (exportOpts o).marginCm = o.marginCm ∧
      (exportOpts o).headerGapPt = o.headerGapPt ∧
      (exportOpts o).autoTwoColumns = o.autoTwoColumns ∧
      (exportOpts o).leadingMult = o.leadingMult ∧
      (exportOpts o).templateId = normTemplateIdS o.templateId ∧
      (exportOpts o).sectionTitle = pyStrip o.sectionTitle := by
  have hf := applyTemplate_fields o
  refine ⟨exportLabelPdf_opts fw doc (some o), ?_, ?_, ?_, ?_, ?_, ?_⟩
  · simpa [exportOpts] using hf.1
  · simpa [exportOpts] using hf.2.1
  · simpa [exportOpts] using hf.2.2.1
  · simpa [exportOpts] using hf.2.2.2.1
  · have := hf.2.2.2.2.2.2
    simp only [exportOpts]
    rw [this, normTemplateIdS_idem]
  · have := hf.2.2.2.2.2.1
    simp only [exportOpts]
    rw [this]

/-! ### C3: a row lands in column 1 only under the two-column decision -/

lemma drawOneRow_fst (ctx : LayCtx) (st : LayState) (r : FlatRow) :
    (drawOneRow ctx st r).1 =
      { st with y := st.y - rowHeight ctx.fw ctx.opts r.2.1 r.2.2 ctx.codeColW ctx.nameColW } :=
  rfl

lemma drawOneRow_snd (ctx : LayCtx) (st : LayState) (r : FlatRow) :
    (drawOneRow ctx st r).2 =
      { page := st.page, col := st.colIdx, x := st.xLeft, yTop := st.y, row := r } :=
  rfl

/-- The state invariant behind the column-index claim: the cursor is in
column 0, or in column 1 with the two-column decision on. -/
def ColOk (ctx : LayCtx) (st : LayState) : Prop :=
  st.colIdx = 0 ∨ (st.colIdx = 1 ∧ ctx.allowTwoCols = true)

lemma colOk_iff (ctx : LayCtx) (st st' : LayState) (h : st'.colIdx = st.colIdx) :
    ColOk ctx st' ↔ ColOk ctx st := by
  unfold ColOk
  rw [h]

lemma startNewColumnOrPage_colOk (ctx : LayCtx) (st : LayState) :
    ColOk ctx (startNewColumnOrPage ctx st) := by
  unfold ColOk startNewColumnOrPage startNewPage
  split_ifs with h
  · exact Or.inr ⟨rfl, h.1⟩
  · exact Or.inl rfl

lemma advanceIfNeeded_colOk (ctx : LayCtx) (r : FlatRow) (lvl1 : Option FlatRow)
    (first : Bool) (st : LayState) (h : ColOk ctx st) :
    ColOk ctx (advanceIfNeeded ctx r lvl1 first st).1 ∧
      ∀ d ∈ (advanceIfNeeded ctx r lvl1 first st).2,
        d.col = 0 ∨ (d.col = 1 ∧ ctx.allowTwoCols = true) := by
  unfold advanceIfNeeded
  split_ifs with hc
  · rcases lvl1 with _ | l1 <;> cases first
    · exact ⟨startNewColumnOrPage_colOk ctx st, by simp⟩
    · exact ⟨startNewColumnOrPage_colOk ctx st, by simp⟩
    · refine ⟨(colOk_iff ctx _ _ rfl).mpr (startNewColumnOrPage_colOk ctx st), ?_⟩
      intro d hd
      have hd2 : d = (drawOneRow ctx (startNewColumnOrPage ctx st) l1).2 := by
        simpa using hd
      subst hd2
      rw [drawOneRow_snd]
      exact startNewColumnOrPage_colOk ctx st
    · exact ⟨startNewColumnOrPage_colOk ctx st, by simp⟩
  · exact ⟨h, by simp⟩

lemma drawRows_colOk (ctx : LayCtx) :
    ∀ (rows : List FlatRow) (lvl1 : Option FlatRow) (first : Bool) (st : LayState),
      ColOk ctx st →
      ColOk ctx (drawRows ctx rows lvl1 first st).1 ∧
        ∀ d ∈ (drawRows ctx rows lvl1 first st).2,
          d.col = 0 ∨ (d.col = 1 ∧ ctx.allowTwoCols = true) := by
  intro rows
  induction rows with
  | nil =>
      intro lvl1 first st h
      exact ⟨by simpa [drawRows] using h, by simp [drawRows]⟩
  | cons r rest ih =>
      intro lvl1 first st h
      have hadv := advanceIfNeeded_colOk ctx r lvl1 first st h
      have hmid : ColOk ctx (afterRow ctx (advanceIfNeeded ctx r lvl1 first st).1 r) :=
        (colOk_iff ctx _ _ rfl).mpr hadv.1
      have hrec := ih lvl1 false (afterRow ctx (advanceIfNeeded ctx r lvl1 first st).1 r) hmid
      refine ⟨hrec.1, ?_⟩
      intro d hd
      have hd2 : d ∈ (advanceIfNeeded ctx r lvl1 first st).2 ∨
          d = (drawOneRow ctx (advanceIfNeeded ctx r lvl1 first st).1 r).2 ∨
          d ∈ (drawRows ctx rest lvl1 false
            (afterRow ctx (advanceIfNeeded ctx r lvl1 first st).1 r)).2 := by
        simpa [drawRows, List.mem_append] using hd
      rcases hd2 with h1 | h1 | h1
      · exact hadv.2 d h1
      · subst h1
        rw [drawOneRow_snd]
        exact hadv.1
      · exact hrec.2 d h1

lemma drawGroup_colOk (ctx : LayCtx) (st : LayState) (g : List FlatRow) (h : ColOk ctx st) :
    ColOk ctx (drawGroup ctx st g).1 ∧
      ∀ d ∈ (drawGroup ctx st g).2,
        d.col = 0 ∨ (d.col = 1 ∧ ctx.allowTwoCols = true) := by
  have hstart : ColOk ctx (groupStart ctx st g) := by
    unfold groupStart
    split_ifs with hc
    · exact startNewColumnOrPage_colOk ctx st
    · exact h
  have hr := drawRows_colOk ctx g (groupLvl1 g) true (groupStart ctx st g) hstart
  exact ⟨(colOk_iff ctx _ _ rfl).mpr hr.1, hr.2⟩

lemma drawGroups_colOk (ctx : LayCtx) :
    ∀ (gs : List (List FlatRow)) (st : LayState), ColOk ctx st →
      ∀ ds ∈ (drawGroups ctx gs st).2, ∀ d ∈ ds,
        d.col = 0 ∨ (d.col = 1 ∧ ctx.allowTwoCols = true) := by
  intro gs
  induction gs with
  | nil =>
      intro st h ds hds
      simp [drawGroups] at hds
  | cons g gs ih =>
      intro st h ds hds
      have hg := drawGroup_colOk ctx st g h
      have hds2 : ds = (drawGroup ctx st g).2 ∨
          ds ∈ (drawGroups ctx gs (drawGroup ctx st g).1).2 := by
        simpa [drawGroups] using hds
      rcases hds2 with h1 | h1
      · exact h1 ▸ hg.2
      · exact ih (drawGroup ctx st g).1 hg.1 ds h1

lemma exportLayout_allowTwoCols (fw : FontOracle) (doc : LabelDoc)
    (optsIn : Option PdfExportOptions) :
    (exportLayout fw doc optsIn).ctx.allowTwoCols =
      twoColAllowed (exportOpts (optsIn.getD {})) := by
  simp [exportLayout]

lemma exportLayout_st0_colIdx (fw : FontOracle) (doc : LabelDoc)
    (optsIn : Option PdfExportOptions) :
    (exportLayout fw doc optsIn).st0.colIdx = 0 := by
  simp [exportLayout]

/-- C3 (amended): a data row is ever placed in column 1 only when the
document-wide two-column decision `twoColAllowed` is on, i.e. the content
width is at least 15 cm and either `auto_two_columns` is enabled or the
template is `two_column` (whose branch ignores `auto_two_columns`); the
decision is a function of the normalized options alone, computed before
any row is drawn and fixed for the whole document, and every column index
is 0 or 1. -/
theorem secondColumn_only_if_allowed (fw : FontOracle) (doc : LabelDoc)
    (optsIn : Option PdfExportOptions) :
    ∀ ds ∈ (exportLabelPdf fw doc optsIn).groupDraws, ∀ d ∈ ds,
      d.col = 0 ∨ (d.col = 1 ∧ twoColAllowed (exportOpts (optsIn.getD {})) = true) := by
  intro ds hds d hd
  by_cases hrows : docRows doc = []
  · simp [exportLabelPdf, hrows] at hds
  · have hds2 : ds ∈ (drawGroups (exportLayout fw doc optsIn).ctx
        (exportLayout fw doc optsIn).groups (exportLayout fw doc optsIn).st0).2 := by
      simpa [exportLabelPdf, hrows] using hds
    have h0 : ColOk (exportLayout fw doc optsIn).ctx (exportLayout fw doc optsIn).st0 := by
      unfold ColOk
      rw [exportLayout_st0_colIdx]
      exact Or.inl rfl
    have hmain := drawGroups_colOk (exportLayout fw doc optsIn).ctx
      (exportLayout fw doc optsIn).groups (exportLayout fw doc optsIn).st0 h0 ds hds2 d hd
    rwa [exportLayout_allowTwoCols] at hmain

/-! ### C1: a level-1 group that fits one fresh column is never split -/

lemma rowSpace_nonneg (b : Bool) : 0 ≤ rowSpace b := by
  cases b <;> norm_num [rowSpace]

lemma rowAdvance_le_rowSpace (b : Bool) : rowAdvance b ≤ rowSpace b := by
  cases b <;> norm_num [rowSpace, rowAdvance]

lemma rowHeight_nonneg (fw : FontOracle) (o : PdfExportOptions) (code name : Str)
    (cw nw : ℚ) (h1 : 0 ≤ o.maxFont) (h2 : 0 ≤ o.leadingMult) (h3 : 0 ≤ o.rowPadPt) :
    0 ≤ rowHeight fw o code name cw nw := by
  unfold rowHeight
  have hn : (0 : ℚ) ≤ ((max (max (wrapWords fw code o.fontBold o.maxFont cw).length
      (wrapWords fw name o.fontRegular o.maxFont nw).length) 1 : ℕ) : ℚ) := by positivity
  have := mul_nonneg (mul_nonneg h1 h2) hn
  linarith

/-- The typographic positivity facts the layout proofs use; they hold for
every export because `_apply_template` writes positive template constants
(`applyTemplate_pos`), given a non-negative `leading_mult`. -/
def CtxNice (ctx : LayCtx) : Prop :=
  0 ≤ ctx.opts.maxFont ∧ 0 ≤ ctx.opts.leadingMult ∧ 0 ≤ ctx.opts.rowPadPt

lemma groupEstH_nonneg (ctx : LayCtx) (hc : CtxNice ctx) (g : List FlatRow) :
    0 ≤ groupEstH ctx g := by
  unfold groupEstH
  apply List.sum_nonneg
  intro x hx
  obtain ⟨r, _, hr⟩ := List.mem_map.mp hx
  rw [← hr]
  have h1 := rowHeight_nonneg ctx.fw ctx.opts r.2.1 r.2.2 ctx.codeColW ctx.nameColW
    hc.1 hc.2.1 hc.2.2
  have h2 := rowSpace_nonneg ctx.dense
  linarith

lemma groupEstH_cons (ctx : LayCtx) (r : FlatRow) (rest : List FlatRow) :
    groupEstH ctx (r :: rest) =
      (rowHeight ctx.fw ctx.opts r.2.1 r.2.2 ctx.codeColW ctx.nameColW +
        rowSpace ctx.dense) + groupEstH ctx rest := by
  simp [groupEstH]

lemma advanceIfNeeded_of_fit (ctx : LayCtx) (r : FlatRow) (lvl1 : Option FlatRow)
    (first : Bool) (st : LayState)
    (h : ¬(st.y - (rowHeight ctx.fw ctx.opts r.2.1 r.2.2 ctx.codeColW ctx.nameColW +
      rowSpace ctx.dense) < ctx.margin)) :
    advanceIfNeeded ctx r lvl1 first st = (st, []) := by
  unfold advanceIfNeeded
  rw [if_neg h]

lemma afterRow_page (ctx : LayCtx) (st : LayState) (r : FlatRow) :
    (afterRow ctx st r).page = st.page := rfl

lemma afterRow_colIdx (ctx : LayCtx) (st : LayState) (r : FlatRow) :
    (afterRow ctx st r).colIdx = st.colIdx := rfl

lemma afterRow_yStart (ctx : LayCtx) (st : LayState) (r : FlatRow) :
    (afterRow ctx st r).yStart = st.yStart := rfl

lemma afterRow_y (ctx : LayCtx) (st : LayState) (r : FlatRow) :
    (afterRow ctx st r).y =
      st.y - rowHeight ctx.fw ctx.opts r.2.1 r.2.2 ctx.codeColW ctx.nameColW -
        rowAdvance ctx.dense := rfl

lemma drawRows_stay (ctx : LayCtx) (hc : CtxNice ctx) :
    ∀ (rows : List FlatRow) (lvl1 : Option FlatRow) (first : Bool) (st : LayState),
      ctx.margin + groupEstH ctx rows ≤ st.y →
      (drawRows ctx rows lvl1 first st).1.page = st.page ∧
        (drawRows ctx rows lvl1 first st).1.colIdx = st.colIdx ∧
        (drawRows ctx rows lvl1 first st).1.yStart = st.yStart ∧
        st.y - groupEstH ctx rows ≤ (drawRows ctx rows lvl1 first st).1.y ∧
        ∀ d ∈ (drawRows ctx rows lvl1 first st).2, d.page = st.page ∧ d.col = st.colIdx := by
  intro rows
  induction rows with
  | nil =>
      intro lvl1 first st _
      refine ⟨rfl, rfl, rfl, ?_, by simp [drawRows]⟩
      have h0 : groupEstH ctx ([] : List FlatRow) = 0 := by simp [groupEstH]
      rw [h0]
      show st.y - 0 ≤ st.y
      linarith
  | cons r rest ih =>
      intro lvl1 first st hfit
      rw [groupEstH_cons] at hfit
      have hr0 : 0 ≤ rowHeight ctx.fw ctx.opts r.2.1 r.2.2 ctx.codeColW ctx.nameColW :=
        rowHeight_nonneg _ _ _ _ _ _ hc.1 hc.2.1 hc.2.2
      have hrest0 : 0 ≤ groupEstH ctx rest := groupEstH_nonneg ctx hc rest
      have hsp0 : 0 ≤ rowSpace ctx.dense := rowSpace_nonneg _
      have hadv : rowAdvance ctx.dense ≤ rowSpace ctx.dense := rowAdvance_le_rowSpace _
      have hnofit : ¬(st.y - (rowHeight ctx.fw ctx.opts r.2.1 r.2.2 ctx.codeColW ctx.nameColW +
          rowSpace ctx.dense) < ctx.margin) := not_lt.mpr (by linarith)
      have hAeq := advanceIfNeeded_of_fit ctx r lvl1 first st hnofit
      have hmidy : ctx.margin + groupEstH ctx rest ≤ (afterRow ctx st r).y := by
        rw [afterRow_y]
        linarith
      have hrec := ih lvl1 false (afterRow ctx st r) hmidy
      have hkey : drawRows ctx (r :: rest) lvl1 first st =
          ((drawRows ctx rest lvl1 false (afterRow ctx st r)).1,
            (drawOneRow ctx st r).2 ::
              (drawRows ctx rest lvl1 false (afterRow ctx st r)).2) := by
        simp [drawRows, hAeq]
      rw [hkey]
      refine ⟨?_, ?_, ?_, ?_, ?_⟩
      · rw [hrec.1, afterRow_page]
      · rw [hrec.2.1, afterRow_colIdx]
      · rw [hrec.2.2.1, afterRow_yStart]
      · have h4 := hrec.2.2.2.1
        rw [afterRow_y] at h4
        rw [groupEstH_cons]
        show st.y - _ ≤ (drawRows ctx rest lvl1 false (afterRow ctx st r)).1.y
        linarith
      · intro d hd
        rcases List.mem_cons.mp hd with h1 | h1
        · subst h1
          rw [drawOneRow_snd]
          exact ⟨rfl, rfl⟩
        · have h2 := hrec.2.2.2.2 d h1
          rw [afterRow_page] at h2
          rw [afterRow_colIdx] at h2
          exact h2

lemma startNewColumnOrPage_yStart (ctx : LayCtx) (st : LayState) :
    (startNewColumnOrPage ctx st).yStart = st.yStart ∨
      (startNewColumnOrPage ctx st).yStart = ctx.contY := by
  unfold startNewColumnOrPage startNewPage
  split_ifs
  · exact Or.inl rfl
  · exact Or.inr rfl

lemma startNewColumnOrPage_y (ctx : LayCtx) (st : LayState) :
    (startNewColumnOrPage ctx st).y = st.yStart ∨
      (startNewColumnOrPage ctx st).y = ctx.contY := by
  unfold startNewColumnOrPage startNewPage
  split_ifs
  · exact Or.inl rfl
  · exact Or.inr rfl

lemma advanceIfNeeded_yStart (ctx : LayCtx) (r : FlatRow) (lvl1 : Option FlatRow)
    (first : Bool) (st : LayState) :
    (advanceIfNeeded ctx r lvl1 first st).1.yStart = st.yStart ∨
      (advanceIfNeeded ctx r lvl1 first st).1.yStart = ctx.contY := by
  unfold advanceIfNeeded
  split_ifs with hcnd
  · rcases lvl1 with _ | l1 <;> cases first
    · exact startNewColumnOrPage_yStart ctx st
    · exact startNewColumnOrPage_yStart ctx st
    · show (afterRow ctx (startNewColumnOrPage ctx st) l1).yStart = _ ∨ _
      rw [afterRow_yStart]
      exact startNewColumnOrPage_yStart ctx st
    · exact startNewColumnOrPage_yStart ctx st
  · exact Or.inl rfl

lemma drawRows_yStart (ctx : LayCtx) :
    ∀ (rows : List FlatRow) (lvl1 : Option FlatRow) (first : Bool) (st : LayState),
      (drawRows ctx rows lvl1 first st).1.yStart = st.yStart ∨
        (drawRows ctx rows lvl1 first st).1.yStart = ctx.contY := by
  intro rows
  induction rows with
  | nil => intro lvl1 first st; exact Or.inl rfl
  | cons r rest ih =>
      intro lvl1 first st
      have h1 := advanceIfNeeded_yStart ctx r lvl1 first st
      have h2 := ih lvl1 false (afterRow ctx (advanceIfNeeded ctx r lvl1 first st).1 r)
      have hmid : (afterRow ctx (advanceIfNeeded ctx r lvl1 first st).1 r).yStart =
          (advanceIfNeeded ctx r lvl1 first st).1.yStart := afterRow_yStart _ _ _
      have hfst : (drawRows ctx (r :: rest) lvl1 first st).1 =
          (drawRows ctx rest lvl1 false
            (afterRow ctx (advanceIfNeeded ctx r lvl1 first st).1 r)).1 := rfl
      rw [hfst]
      rcases h2 with h | h
      · rw [h, hmid]
        exact h1
      · exact Or.inr h

lemma drawGroup_yStart (ctx : LayCtx) (st : LayState) (g : List FlatRow) :
    (drawGroup ctx st g).1.yStart = st.yStart ∨ (drawGroup ctx st g).1.yStart = ctx.contY := by
  have h1 : (groupStart ctx st g).yStart = st.yStart ∨
      (groupStart ctx st g).yStart = ctx.contY := by
    unfold groupStart
    split_ifs with hcnd
    · exact startNewColumnOrPage_yStart ctx st
    · exact Or.inl rfl
  have h2 := drawRows_yStart ctx g (groupLvl1 g) true (groupStart ctx st g)
  have hfst : (drawGroup ctx st g).1.yStart =
      (drawRows ctx g (groupLvl1 g) true (groupStart ctx st g)).1.yStart := rfl
  rw [hfst]
  rcases h2 with h | h
  · rw [h]
    exact h1
  · exact Or.inr h

lemma drawGroup_onecol (ctx : LayCtx) (hc : CtxNice ctx) (st : LayState) (g : List FlatRow)
    (h1 : ctx.margin + groupEstH ctx g ≤ st.yStart)
    (h2 : ctx.margin + groupEstH ctx g ≤ ctx.contY) :
    ∃ p c, ∀ d ∈ (drawGroup ctx st g).2, d.page = p ∧ d.col = c := by
  by_cases hg : st.y - groupEstH ctx g < ctx.margin
  · have hSeq : groupStart ctx st g = startNewColumnOrPage ctx st := by
      unfold groupStart
      rw [if_pos hg]
    have hfit2 : ctx.margin + groupEstH ctx g ≤ (startNewColumnOrPage ctx st).y := by
      rcases startNewColumnOrPage_y ctx st with h | h
      · rw [h]; exact h1
      · rw [h]; exact h2
    have hstay := drawRows_stay ctx hc g (groupLvl1 g) true (startNewColumnOrPage ctx st) hfit2
    refine ⟨(startNewColumnOrPage ctx st).page, (startNewColumnOrPage ctx st).colIdx, ?_⟩
    show ∀ d ∈ (drawRows ctx g (groupLvl1 g) true (groupStart ctx st g)).2, _
    rw [hSeq]
    exact hstay.2.2.2.2
  · have hSeq : groupStart ctx st g = st := by
      unfold groupStart
      rw [if_neg hg]
    have hfit2 : ctx.margin + groupEstH ctx g ≤ st.y := by
      have := not_lt.mp hg
      linarith
    have hstay := drawRows_stay ctx hc g (groupLvl1 g) true st hfit2
    refine ⟨st.page, st.colIdx, ?_⟩
    show ∀ d ∈ (drawRows ctx g (groupLvl1 g) true (groupStart ctx st g)).2, _
    rw [hSeq]
    exact hstay.2.2.2.2

lemma drawGroups_spec (ctx : LayCtx) (hc : CtxNice ctx) (y0 : ℚ) (hy0 : y0 ≤ ctx.contY) :
    ∀ (gs : List (List FlatRow)) (st : LayState),
      (st.yStart = y0 ∨ st.yStart = ctx.contY) →
      ∀ (i : ℕ) (g : List FlatRow) (ds : List RowDraw),
        gs[i]? = some g → (drawGroups ctx gs st).2[i]? = some ds →
        ctx.margin + groupEstH ctx g ≤ y0 →
        ∃ p c, ∀ d ∈ ds, d.page = p ∧ d.col = c := by
  intro gs
  induction gs with
  | nil =>
      intro st hst i g ds hg
      simp at hg
  | cons g0 gs ih =>
      intro st hst i g ds hg hds hfit
      cases i with
      | zero =>
          have hgeq : g = g0 := by
            have h0 : g0 = g := by simpa using hg
            exact h0.symm
          have hdseq : ds = (drawGroup ctx st g0).2 := by
            have : (drawGroups ctx (g0 :: gs) st).2 =
                (drawGroup ctx st g0).2 :: (drawGroups ctx gs (drawGroup ctx st g0).1).2 := rfl
            rw [this] at hds
            have h0 : (drawGroup ctx st g0).2 = ds := by simpa using hds
            exact h0.symm
          subst hgeq
          subst hdseq
          have hA : ctx.margin + groupEstH ctx g ≤ st.yStart := by
            rcases hst with h | h
            · rw [h]; exact hfit
            · rw [h]; linarith
          have hB : ctx.margin + groupEstH ctx g ≤ ctx.contY := by linarith
          exact drawGroup_onecol ctx hc st g hA hB
      | succ j =>
          have hg2 : gs[j]? = some g := by simpa using hg
          have hds2 : (drawGroups ctx gs (drawGroup ctx st g0).1).2[j]? = some ds := by
            have : (drawGroups ctx (g0 :: gs) st).2 =
                (drawGroup ctx st g0).2 :: (drawGroups ctx gs (drawGroup ctx st g0).1).2 := rfl
            rw [this] at hds
            simpa using hds
          have hst2 : (drawGroup ctx st g0).1.yStart = y0 ∨
              (drawGroup ctx st g0).1.yStart = ctx.contY := by
            rcases drawGroup_yStart ctx st g0 with h | h
            · rw [h]; exact hst
            · exact Or.inr h
          exact ih (drawGroup ctx st g0).1 hst2 j g ds hg2 hds2 hfit

lemma page1StartY_le_contStartY (H margin gap : ℚ) (hasCab hasSec : Bool) :
    page1StartY H margin gap hasCab hasSec ≤ contStartY H margin gap hasCab hasSec := by
  cases hasCab <;> cases hasSec <;> simp [page1StartY, contStartY] <;> linarith

lemma exportLayout_groups (fw : FontOracle) (doc : LabelDoc)
    (optsIn : Option PdfExportOptions) :
    (exportLayout fw doc optsIn).groups = groupByLevel1 (docRows doc) := by
  simp [exportLayout]

lemma exportLayout_ctx_opts (fw : FontOracle) (doc : LabelDoc)
    (optsIn : Option PdfExportOptions) :
    (exportLayout fw doc optsIn).ctx.opts = exportOpts (optsIn.getD {}) := by
  simp [exportLayout]

lemma exportLayout_yStart_le_contY (fw : FontOracle) (doc : LabelDoc)
    (optsIn : Option PdfExportOptions) :
    (exportLayout fw doc optsIn).st0.yStart ≤ (exportLayout fw doc optsIn).ctx.contY := by
  simp only [exportLayout]
  exact page1StartY_le_contStartY _ _ _ _ _

/-- C1: in an export with two-column flow in effect, a level-1 group
whose estimated height (sum of its rows' estimated heights plus the
inter-row spacing, exactly the code's `g_h`) fits within one full fresh
column — the space between the column top of page 1 (the minimum over all
pages, since continuation headers are shorter) and the bottom margin — is
never split: every row drawn for that group, landing on one page and one
column.  Only a group taller than that is ever split row-by-row. -/
theorem level1Group_fitting_column_not_split (fw : FontOracle) (doc : LabelDoc)
    (optsIn : Option PdfExportOptions)
    (hlm : 0 ≤ (exportOpts (optsIn.getD {})).leadingMult)
    (_htwo : (exportLayout fw doc optsIn).ctx.allowTwoCols = true)
    (i : ℕ) (g : List FlatRow) (ds : List RowDraw)
    (hg : (exportLayout fw doc optsIn).groups[i]? = some g)
    (hfit : groupEstH (exportLayout fw doc optsIn).ctx g ≤
      (exportLayout fw doc optsIn).st0.yStart - (exportLayout fw doc optsIn).ctx.margin)
    (hds : (exportLabelPdf fw doc optsIn).groupDraws[i]? = some ds) :
    ∀ d1 ∈ ds, ∀ d2 ∈ ds, d1.page = d2.page ∧ d1.col = d2.col := by
  by_cases hrows : docRows doc = []
  · exfalso
    rw [exportLayout_groups, hrows] at hg
    have hempty : groupByLevel1 ([] : List FlatRow) = [] :=
      (groupByLevel1_partition []).2.1 rfl
    rw [hempty] at hg
    simp at hg
  · have hgd : (exportLabelPdf fw doc optsIn).groupDraws =
        (drawGroups (exportLayout fw doc optsIn).ctx (exportLayout fw doc optsIn).groups
          (exportLayout fw doc optsIn).st0).2 := by
      simp [exportLabelPdf, hrows]
    have hpos := applyTemplate_pos (optsIn.getD {})
    have hnice : CtxNice (exportLayout fw doc optsIn).ctx := by
      unfold CtxNice
      rw [exportLayout_ctx_opts]
      refine ⟨?_, hlm, ?_⟩
      · have hmf : (exportOpts (optsIn.getD {})).maxFont =
            (applyTemplate (optsIn.getD {})).maxFont := by simp [exportOpts]
        rw [hmf]
        exact le_of_lt hpos.1
      · have hrp : (exportOpts (optsIn.getD {})).rowPadPt =
            (applyTemplate (optsIn.getD {})).rowPadPt := by simp [exportOpts]
        rw [hrp]
        exact le_of_lt hpos.2
    rw [hgd] at hds
    obtain ⟨p, c, hpc⟩ := drawGroups_spec (exportLayout fw doc optsIn).ctx hnice
      (exportLayout fw doc optsIn).st0.yStart (exportLayout_yStart_le_contY fw doc optsIn)
      (exportLayout fw doc optsIn).groups (exportLayout fw doc optsIn).st0 (Or.inl rfl)
      i g ds hg hds (by linarith)
    intro d1 h1 d2 h2
    exact ⟨(hpc d1 h1).1.trans (hpc d2 h2).1.symm, (hpc d1 h1).2.trans (hpc d2 h2).2.symm⟩

/-! ### Concrete runs of the export model -/

set_option maxHeartbeats 2000000 in
/-- C3 counterexample: with the `two_column` template on a wide page and
`auto_two_columns = False`, a row is still drawn in column 1 — the
template branch of the decision ignores `auto_two_columns`, so "column 1
only if `auto_two_columns` is enabled" is false as stated. -/
theorem secondColumn_claim_counterexample :
    ({ pagesize := (600, 86), templateId := "two_column".data, autoTwoColumns := false,
        marginCm := 127 / 360 } : PdfExportOptions).autoTwoColumns = false ∧
      ((exportLabelPdf (fun _ _ => 0)
          ⟨some [Node.mk (some "a".data) (some "x".data)
            [Node.mk (some "b".data) (some "y".data) []]], "t".data, []⟩
          (some { pagesize := (600, 86), templateId := "two_column".data,
                  autoTwoColumns := false, marginCm := 127 / 360 })).groupDraws.any
        (fun ds => ds.any (fun d => d.col == 1))) = true := by
  refine ⟨rfl, ?_⟩
  norm_num +decide [exportLabelPdf, exportLayout, exportOpts, applyTemplate, templateDefaults,
    normTemplateIdS, allowedTemplates, pyLower, pyStrip, pyLstrip, pyRstrip, normPagesize,
    contentWidth, twoColAllowed, cm, A4, page1StartY, contStartY, docRows, walkTree,
    groupByLevel1, groupLoop, drawGroups, drawGroup, drawRows, advanceIfNeeded, afterRow,
    drawOneRow, startNewColumnOrPage, startNewPage, groupStart, groupLvl1, groupEstH,
    rowHeight, rowSpace, rowAdvance, wrapWords, wrapLines, wrapChunk, pySplit, pySplitAux,
    stringWidth]

set_option maxHeartbeats 2000000 in
/-- C3 witness: the single row of a one-node default-options export is
drawn in column 0. -/
theorem secondColumn_only_if_allowed_witness :
    (⟨1, 0, 5760 / 127, 96588 / 127, ((1 : ℤ), "a".data, "x".data)⟩ : RowDraw).col = 0 ∨
      ((⟨1, 0, 5760 / 127, 96588 / 127, ((1 : ℤ), "a".data, "x".data)⟩ : RowDraw).col = 1 ∧
        twoColAllowed (exportOpts ((Option.none : Option PdfExportOptions).getD {})) = true) :=
  secondColumn_only_if_allowed (fun _ _ => 0)
    ⟨some [Node.mk (some "a".data) (some "x".data) []], "t".data, []⟩ Option.none
    [⟨1, 0, 5760 / 127, 96588 / 127, ((1 : ℤ), "a".data, "x".data)⟩]
    (by norm_num +decide [exportLabelPdf, exportLayout, exportOpts, applyTemplate,
      templateDefaults, normTemplateIdS, allowedTemplates, pyLower, pyStrip, pyLstrip,
      pyRstrip, normPagesize, contentWidth, twoColAllowed, cm, A4, page1StartY, contStartY,
      docRows, walkTree, groupByLevel1, groupLoop, drawGroups, drawGroup, drawRows,
      advanceIfNeeded, afterRow, drawOneRow, startNewColumnOrPage, startNewPage, groupStart,
      groupLvl1, groupEstH, rowHeight, rowSpace, rowAdvance, wrapWords, wrapLines, wrapChunk,
      pySplit, pySplitAux, stringWidth])
    _ (by simp)

set_option maxHeartbeats 4000000 in
/-- C1 witness: a 2-row level-1 group (parent plus one child) on a
default A4 export fits one fresh column and both its rows land on the
same page and column. -/
theorem level1Group_fitting_column_not_split_witness :
    (⟨1, 0, 5760 / 127, 96588 / 127, ((1 : ℤ), "a".data, "x".data)⟩ : RowDraw).page =
        (⟨1, 0, 5760 / 127, 374287 / 508, ((2 : ℤ), "b".data, "y".data)⟩ : RowDraw).page ∧
      (⟨1, 0, 5760 / 127, 96588 / 127, ((1 : ℤ), "a".data, "x".data)⟩ : RowDraw).col =
        (⟨1, 0, 5760 / 127, 374287 / 508, ((2 : ℤ), "b".data, "y".data)⟩ : RowDraw).col :=
  level1Group_fitting_column_not_split (fun _ _ => 0)
    ⟨some [Node.mk (some "a".data) (some "x".data)
      [Node.mk (some "b".data) (some "y".data) []]], "t".data, []⟩ Option.none
    (by norm_num +decide [exportOpts, applyTemplate, templateDefaults, normTemplateIdS,
      allowedTemplates, pyLower, pyStrip, pyLstrip, pyRstrip])
    (by norm_num +decide [exportLayout, exportOpts, applyTemplate, templateDefaults,
      normTemplateIdS, allowedTemplates, pyLower, pyStrip, pyLstrip, pyRstrip, normPagesize,
      contentWidth, twoColAllowed, cm, A4])
    0
    [((1 : ℤ), "a".data, "x".data), ((2 : ℤ), "b".data, "y".data)]
    [⟨1, 0, 5760 / 127, 96588 / 127, ((1 : ℤ), "a".data, "x".data)⟩,
      ⟨1, 0, 5760 / 127, 374287 / 508, ((2 : ℤ), "b".data, "y".data)⟩]
    (by norm_num +decide [exportLayout, exportOpts, applyTemplate, templateDefaults,
      normTemplateIdS, allowedTemplates, pyLower, pyStrip, pyLstrip, pyRstrip, normPagesize,
      contentWidth, twoColAllowed, cm, A4, docRows, walkTree, groupByLevel1, groupLoop])
    (by norm_num +decide [exportLayout, exportOpts, applyTemplate, templateDefaults,
      normTemplateIdS, allowedTemplates, pyLower, pyStrip, pyLstrip, pyRstrip, normPagesize,
      contentWidth, twoColAllowed, cm, A4, page1StartY, contStartY, docRows, walkTree,
      groupByLevel1, groupLoop, groupEstH, rowHeight, rowSpace, wrapWords, wrapLines,
      wrapChunk, pySplit, pySplitAux, stringWidth])
    (by norm_num +decide [exportLabelPdf, exportLayout, exportOpts, applyTemplate,
      templateDefaults, normTemplateIdS, allowedTemplates, pyLower, pyStrip, pyLstrip,
      pyRstrip, normPagesize, contentWidth, twoColAllowed, cm, A4, page1StartY, contStartY,
      docRows, walkTree, groupByLevel1, groupLoop, drawGroups, drawGroup, drawRows,
      advanceIfNeeded, afterRow, drawOneRow, startNewColumnOrPage, startNewPage, groupStart,
      groupLvl1, groupEstH, rowHeight, rowSpace, rowAdvance, wrapWords, wrapLines, wrapChunk,
      pySplit, pySplitAux, stringWidth])
    _ (by simp) _ (by simp)

end CatalogLabel
